import Mathlib

/-!
Verification of the carlin polyhedron toolbox (src/carlin/polyhedron_toolbox.py).

Shallow embedding conventions:

- Matrices are lists of rows, vectors are lists; entries are rationals.
  Values living in the Sage RDF field (real double field) are idealized as exact
  rationals; the base-ring tag itself is tracked separately, so statements
  about which field a result is tagged with remain faithful.
- A Sage Polyhedron handle is modelled by its base-ring tag, the answer the
  external engine gives to is_empty, and its ordered H-representation rows,
  each row being the vector [offset, coeff_1, ..., coeff_n] together with the
  is_equation tag, meaning offset + coeff . x >= 0 (inequality) resp. = 0
  (equation).  The engine itself (the Sage Polyhedron constructor and its
  vertex enumeration) is outside the covered source; where a theorem needs
  its behaviour, that behaviour is taken as an explicit hypothesis matching
  the interface contract stated in the specification.
- The external LP solver is modelled as an oracle argument; the toolbox
  functions are embedded up to the data they hand to that oracle.
- Fallible Python code returns Except; in particular the attribute call
  P.is_empty() on a plain Python list raises AttributeError, which the
  embedding reflects.
-/

namespace Carlin

/-- The two base rings the toolbox supports (Sage QQ and RDF). -/
inductive BaseRing
  | QQ
  | RDF
  deriving DecidableEq

/-- One H-representation row of a Sage polytope object: the tag telling whether
the row is an equation, and the vector [offset, coeff_1, ..., coeff_n] split
into its offset (entry 0) and coefficient part (entries 1..n). -/
structure HrepRow where
  is_equation : Bool
  offset : ℚ
  coeffs : List ℚ
  deriving DecidableEq

/-- Model of a Sage Polyhedron handle: base-ring tag, the answer of the external engine
 to is_empty, and the ordered H-representation rows. -/
structure PolyObj where
  base_ring : BaseRing
  empty_ans : Bool
  rows : List HrepRow

/-- Dot product of rational vectors (the Sage dot_product method; also the row action
of a matrix on a point). Extra entries of the longer list are ignored, which
agrees with the source where lengths always match. -/
def dot : List ℚ → List ℚ → ℚ
  | a :: u, c :: v => a * c + dot u v
  | _, _ => 0

/-- Dot product of real vectors, for the Chebyshev-center LP whose row norms
are real square roots. -/
def dotR : List ℝ → List ℝ → ℝ
  | a :: u, c :: v => a * c + dotR u v
  | _, _ => 0

/-- Elementwise embedding of a rational vector into the reals. -/
def castR (u : List ℚ) : List ℝ := u.map Rat.cast

/-- Satisfaction of one polytope-object row at a point: an equation row
demands offset + coeffs . x = 0, an inequality row offset + coeffs . x >= 0. -/
def rowSat (x : List ℚ) (r : HrepRow) : Prop :=
  if r.is_equation then r.offset + dot r.coeffs x = 0 else 0 ≤ r.offset + dot r.coeffs x

/-- Feasible region described by a list of polytope-object rows. -/
def polyRegion (rows : List HrepRow) : Set (List ℚ) :=
  setOf fun x => ∀ r ∈ rows, rowSat x r

/-- Feasible region of a half-space system: points x with A x <= b, row by row. -/
def hrepRegion (A : List (List ℚ)) (b : List ℚ) : Set (List ℚ) :=
  setOf fun x => ∀ p ∈ A.zip b, dot p.1 x ≤ p.2

/-- Inequality matrix built by polyhedron_to_Hrep without equality separation
(lines 140-161): each inequality row contributes its negated coefficient part;
each equation row contributes the negated coefficient part and then the
coefficient part unchanged. -/
def hrepA : List HrepRow → List (List ℚ)
  | [] => []
  | r :: rs =>
      if r.is_equation then (r.coeffs.map Neg.neg) :: r.coeffs :: hrepA rs
      else (r.coeffs.map Neg.neg) :: hrepA rs

/-- Right-hand side built by polyhedron_to_Hrep without equality separation:
the offset of the row, twice for an equation row (lines 150-154, 158-159). -/
def hrepB : List HrepRow → List ℚ
  | [] => []
  | r :: rs =>
      if r.is_equation then r.offset :: r.offset :: hrepB rs
      else r.offset :: hrepB rs

/-- A matrix together with the base-ring tag it is returned in. -/
structure RMat where
  ring : BaseRing
  entries : List (List ℚ)

/-- A vector together with the base-ring tag it is returned in. -/
structure RVec where
  ring : BaseRing
  entries : List ℚ

/-- polyhedron_to_Hrep with separate_equality_constraints = False: the returned
pair [A, b], built from the rows of P and cast to RDF by the final
matrix(RDF, A), vector(RDF, b) at line 161. -/
def polyhedron_to_Hrep (P : PolyObj) : RMat × RVec :=
  (RMat.mk BaseRing.RDF (hrepA P.rows), RVec.mk BaseRing.RDF (hrepB P.rows))

/-- Inequality matrix of the separated variant (lines 174-177). -/
def sepIneqA (rows : List HrepRow) : List (List ℚ) :=
  (rows.filter fun r => !r.is_equation).map fun r => r.coeffs.map Neg.neg

/-- Inequality right-hand side of the separated variant. -/
def sepIneqB (rows : List HrepRow) : List ℚ :=
  (rows.filter fun r => !r.is_equation).map fun r => r.offset

/-- Equality matrix of the separated variant (lines 169-172). -/
def sepEqA (rows : List HrepRow) : List (List ℚ) :=
  (rows.filter fun r => r.is_equation).map fun r => r.coeffs.map Neg.neg

/-- Equality right-hand side of the separated variant. -/
def sepEqB (rows : List HrepRow) : List ℚ :=
  (rows.filter fun r => r.is_equation).map fun r => r.offset

/-- polyhedron_to_Hrep with separate_equality_constraints = True: the returned
quadruple [A, b, Aeq, beq], all cast to RDF at line 179. -/
def polyhedron_to_Hrep_sep (P : PolyObj) : (RMat × RVec) × (RMat × RVec) :=
  ((RMat.mk BaseRing.RDF (sepIneqA P.rows), RVec.mk BaseRing.RDF (sepIneqB P.rows)),
   (RMat.mk BaseRing.RDF (sepEqA P.rows), RVec.mk BaseRing.RDF (sepEqB P.rows)))

/-- The ieqs_list that polyhedron_from_Hrep hands to the external Polyhedron
constructor (lines 258-262 and 292-295): per row of A the vector
[b_i, -A_i1, ..., -A_in], i.e. an inequality row with offset b_i and
coefficients -A_i. -/
def polyhedron_from_Hrep_ieqs (A : List (List ℚ)) (b : List ℚ) : List HrepRow :=
  (A.zip b).map fun p => HrepRow.mk false p.2 (p.1.map Neg.neg)

/-- Python-level errors surfaced by the toolbox paths under study. -/
inductive PyErr
  | attributeErr
  | infeasibleErr
  | unboundedErr
  | valueErr
  deriving DecidableEq

/-- The first argument of supp_fun_polyhedron: either the plain Python list
[A, b] (the Half-Space Model form) or a Polyhedron object. -/
inductive SuppInput
  | hrep (A : List (List ℚ)) (b : List ℚ)
  | poly (P : PolyObj)

/-- The attribute call P.is_empty() performed first at line 453 of
supp_fun_polyhedron.  A Polyhedron object answers through the external
engine; a plain Python list has no attribute named is_empty, so the call
raises AttributeError. -/
def pyIsEmpty : SuppInput → Except PyErr Bool
  | SuppInput.hrep _ _ => Except.error PyErr.attributeErr
  | SuppInput.poly P => Except.ok P.empty_ans

/-- Matrix extracted inline from a polytope object by supp_fun_polyhedron
(lines 469-479): one row per constraint row, coefficient part negated, with
no special treatment of equation rows. -/
def inlineA (rows : List HrepRow) : List (List ℚ) :=
  rows.map fun r => r.coeffs.map Neg.neg

/-- Right-hand side extracted inline by supp_fun_polyhedron: the offsets. -/
def inlineB (rows : List HrepRow) : List ℚ :=
  rows.map fun r => r.offset

/-- An LP instance handed to the external solver by supp_fun_polyhedron:
maximize d . x subject to A x <= b over free variables (lines 456-481). -/
structure SuppLP where
  A : List (List ℚ)
  b : List ℚ
  d : List ℚ

/-- supp_fun_polyhedron, embedded up to the solver boundary: the oracle solve
stands for the external LP backend and returns the optimal value or a
solver-reported failure.  Control flow follows lines 452-487: first the
attribute call P.is_empty() (which raises AttributeError on list input), the
empty shortcut returning 0, then constraint extraction - the list input is
used directly, a polytope object goes through the inline extraction - and
the solver call. -/
def supp_fun_polyhedron (solve : SuppLP → Except PyErr ℚ) (P : SuppInput) (d : List ℚ) :
    Except PyErr ℚ :=
  match pyIsEmpty P with
  | Except.error e => Except.error e
  | Except.ok true => Except.ok 0
  | Except.ok false =>
      match P with
      | SuppInput.hrep A b => solve (SuppLP.mk A b d)
      | SuppInput.poly Q => solve (SuppLP.mk (inlineA Q.rows) (inlineB Q.rows) d)

/-- The all-zero rational vector of a given length (zero_vector). -/
def zeros : ℕ → List ℚ
  | 0 => []
  | n + 1 => 0 :: zeros n

/-- Canonical-direction vector of length n with value s at position i
(zero_vector followed by d[i] = s, lines 387-388 and 394). -/
def canon : ℕ → ℕ → ℚ → List ℚ
  | 0, _, _ => []
  | n + 1, 0, s => s :: zeros n
  | n + 1, i + 1, s => 0 :: canon n i s

/-- Number of columns of a list-of-rows matrix (A.ncols()). -/
def ncols (A : List (List ℚ)) : ℕ := A.headI.length

/-- The loop of radius (lines 385-397): for each remaining index i, evaluate
the support function at the canonical direction and at its negation, keeping
the running maximum of absolute values. -/
def radiusFold (solve : SuppLP → Except PyErr ℚ) (A : List (List ℚ)) (b : List ℚ) (n : ℕ) :
    List ℕ → ℚ → Except PyErr ℚ
  | [], r => Except.ok r
  | i :: is, r =>
      match supp_fun_polyhedron solve (SuppInput.hrep A b) (canon n i 1) with
      | Except.error e => Except.error e
      | Except.ok s1 =>
          let r1 := if r ≤ |s1| then |s1| else r
          match supp_fun_polyhedron solve (SuppInput.hrep A b) (canon n i (-1)) with
          | Except.error e => Except.error e
          | Except.ok s2 =>
              let r2 := if r1 ≤ |s2| then |s2| else r1
              radiusFold solve A b n is r2

/-- radius on the list input [A, b] (lines 378-399): loops over the ambient
dimension A.ncols() starting from the running maximum 0. -/
def radius (solve : SuppLP → Except PyErr ℚ) (A : List (List ℚ)) (b : List ℚ) :
    Except PyErr ℚ :=
  radiusFold solve A b (ncols A) (List.range (ncols A)) 0

/-- Rows of the box system built by BoxInfty: for each axis index i, first the
external bound (row e_i, bound upper_i), then the internal bound (row -e_i,
bound -(lower_i)); here in center-radius form with upper = c_i + r and
lower = c_i - r (lines 566-579). -/
def boxRowsAux (n : ℕ) (r : ℚ) : ℕ → List ℚ → List (List ℚ × ℚ)
  | _, [] => []
  | i, ci :: rest =>
      (canon n i 1, ci + r) :: (canon n i (-1), -(ci - r)) :: boxRowsAux n r (i + 1) rest

/-- BoxInfty in center-radius mode with return_HSpaceRep = True: the pair
[A, b] of the 2n-row box system. -/
def BoxInfty_center_radius (c : List ℚ) (r : ℚ) : List (List ℚ) × List ℚ :=
  ((boxRowsAux c.length r 0 c).map Prod.fst, (boxRowsAux c.length r 0 c).map Prod.snd)

/-- Rows of the box system in lengths mode: per axis the external bound
(row e_i, bound max_i) then the internal bound (row -e_i, bound -min_i)
(lines 593-606). -/
def boxRowsLen (n : ℕ) : ℕ → List (ℚ × ℚ) → List (List ℚ × ℚ)
  | _, [] => []
  | i, l :: rest =>
      (canon n i 1, l.2) :: (canon n i (-1), -(l.1)) :: boxRowsLen n (i + 1) rest

/-- BoxInfty in lengths mode with return_HSpaceRep = True. -/
def BoxInfty_lengths (ls : List (ℚ × ℚ)) : List (List ℚ) × List ℚ :=
  ((boxRowsLen ls.length 0 ls).map Prod.fst, (boxRowsLen ls.length 0 ls).map Prod.snd)

/-- Outcome of chebyshev_center in (A, b) mode, up to the solver boundary:
either the literal empty list returned on a row-count mismatch, or the margin
LP instance over the rows (A, b) handed to the solver. -/
inductive ChebyResult
  | empty_result
  | lp (A : List (List ℚ)) (b : List ℚ)
  deriving DecidableEq

/-- chebyshev_center in (A, b) mode (lines 336-352): if the number of rows of
A differs from the length of b the function returns the empty list without
solving anything (lines 342-343); otherwise the margin LP over (A, b) is
formulated and handed to the solver. -/
def chebyshev_center_Ab (A : List (List ℚ)) (b : List ℚ) : ChebyResult :=
  if A.length = b.length then ChebyResult.lp A b else ChebyResult.empty_result

/-- Feasible set of the margin LP formulated at lines 344-347: a point x and a
scalar margin rho are feasible when for every row, A_i . x plus the Euclidean
norm of A_i times rho is at most b_i. -/
def chebyFeasible (A : List (List ℚ)) (b : List ℚ) (x : List ℝ) (ρ : ℝ) : Prop :=
  ∀ p ∈ A.zip b,
    dotR (castR p.1) x + Real.sqrt ((dot p.1 p.1 : ℚ) : ℝ) * ρ ≤ (p.2 : ℝ)

/-- Resolution of the chebyshev_center argument pattern (lines 321-330,
353-354): either proceed in (A, b) mode with the two values bound to the
matrix and right-hand-side slots, proceed in polytope mode, or raise the
ValueError of line 354.  The slots are untyped in Python, hence one value
type for all three. -/
inductive ChebyMode (α : Type)
  | useAb (A : α) (b : α)
  | useP (P : α)
  | ambiguousErr

/-- The argument parse of chebyshev_center: with P present and only A also
present, the statement b, A = A, P rebinds the matrix slot to the first
positional value and the right-hand side to the second (line 327). -/
def chebyParse {α : Type} (P A b : Option α) : ChebyMode α :=
  match P with
  | some Pv =>
      match A, b with
      | none, none => ChebyMode.useP Pv
      | some Av, none => ChebyMode.useAb Pv Av
      | _, _ => ChebyMode.ambiguousErr
  | none =>
      match A, b with
      | some Av, some bv => ChebyMode.useAb Av bv
      | _, _ => ChebyMode.ambiguousErr

/-- A solver oracle that reports every LP infeasible; used to state that
supp_fun_polyhedron fails before the solver is ever consulted. -/
def solveReportsInfeasible : SuppLP → Except PyErr ℚ :=
  fun _ => Except.error PyErr.infeasibleErr

lemma dot_map_neg : ∀ u v : List ℚ, dot (u.map Neg.neg) v = -(dot u v)
  | [], _ => by simp [dot]
  | _ :: _, [] => by simp [dot]
  | a :: u, c :: v => by simp [dot, dot_map_neg u v]; ring

lemma dot_zeros : ∀ (n : ℕ) (v : List ℚ), dot (zeros n) v = 0
  | 0, _ => rfl
  | _ + 1, [] => rfl
  | n + 1, c :: v => by simp [zeros, dot, dot_zeros n v]

lemma dot_canon_self (s : ℚ) : ∀ n i, i < n → dot (canon n i s) (canon n i s) = s * s
  | n + 1, 0, _ => by simp [canon, dot, dot_zeros]
  | n + 1, i + 1, h => by
      simp [canon, dot, dot_canon_self s n i (by omega)]

lemma dotR_zeros : ∀ (n : ℕ) (v : List ℝ), dotR (castR (zeros n)) v = 0
  | 0, _ => rfl
  | _ + 1, [] => rfl
  | n + 1, c :: v => by
      simp only [zeros, castR, List.map_cons, dotR, Rat.cast_zero, zero_mul, zero_add]
      exact dotR_zeros n v

lemma dotR_canon (s : ℚ) : ∀ (n i : ℕ) (y : List ℝ), i < n → n ≤ y.length →
    dotR (castR (canon n i s)) y = (s : ℝ) * ((y.drop i).headD 0)
  | n + 1, 0, a :: y, _, _ => by
      simp only [canon, castR, List.map_cons, dotR, List.drop_zero, List.headD_cons]
      rw [show List.map Rat.cast (zeros n) = castR (zeros n) from rfl, dotR_zeros n y]; ring
  | n + 1, i + 1, a :: y, hi, hy => by
      simp only [canon, castR, List.map_cons, dotR, Rat.cast_zero, zero_mul, zero_add,
        List.drop_succ_cons]
      exact dotR_canon s n i y (by omega) (by simpa using hy)
  | n + 1, 0, [], _, hy => by simp at hy
  | n + 1, i + 1, [], _, hy => by simp at hy

lemma hrepRegion_cons (a : List ℚ) (c : ℚ) (A : List (List ℚ)) (b : List ℚ) (x : List ℚ) :
    x ∈ hrepRegion (a :: A) (c :: b) ↔ dot a x ≤ c ∧ x ∈ hrepRegion A b := by
  simp [hrepRegion]

lemma polyRegion_cons (r : HrepRow) (rows : List HrepRow) (x : List ℚ) :
    x ∈ polyRegion (r :: rows) ↔ rowSat x r ∧ x ∈ polyRegion rows := by
  simp [polyRegion]

/-- On equation-free row lists the system built by polyhedron_to_Hrep has
exactly the region the rows describe. -/
lemma toHrep_region_no_eq : ∀ rows : List HrepRow,
    (∀ r ∈ rows, r.is_equation = false) →
    hrepRegion (hrepA rows) (hrepB rows) = polyRegion rows
  | [], _ => by
      ext x; simp [hrepRegion, hrepA, hrepB, polyRegion]
  | r :: rows, h => by
      have hr : r.is_equation = false := h r (List.mem_cons_self r rows)
      have ih := toHrep_region_no_eq rows (fun s hs => h s (List.mem_cons_of_mem r hs))
      ext x
      rw [Set.ext_iff] at ih
      simp only [hrepA, hrepB, hr, if_false, Bool.false_eq_true]
      rw [hrepRegion_cons, polyRegion_cons, ih x]
      constructor
      · rintro ⟨h1, h2⟩
        refine ⟨?_, h2⟩
        simp only [rowSat, hr, Bool.false_eq_true, if_false]
        rw [dot_map_neg] at h1
        linarith
      · rintro ⟨h1, h2⟩
        refine ⟨?_, h2⟩
        simp only [rowSat, hr, Bool.false_eq_true, if_false] at h1
        rw [dot_map_neg]
        linarith

/-- The rows handed to the Polyhedron constructor by polyhedron_from_Hrep
describe exactly the region A x <= b. -/
lemma polyRegion_fromHrep (A : List (List ℚ)) (b : List ℚ) :
    polyRegion (polyhedron_from_Hrep_ieqs A b) = hrepRegion A b := by
  ext x
  simp only [polyRegion, polyhedron_from_Hrep_ieqs, hrepRegion, Set.mem_setOf_eq,
    List.mem_map, forall_exists_index, and_imp]
  constructor
  · intro h p hp
    have := h _ p hp rfl
    simp only [rowSat, Bool.false_eq_true, if_false] at this
    rw [dot_map_neg] at this
    linarith
  · intro h r p hp hr
    subst hr
    simp only [rowSat, Bool.false_eq_true, if_false]
    rw [dot_map_neg]
    have := h p hp
    linarith

lemma inlineA_eq_hrepA : ∀ rows : List HrepRow,
    (∀ r ∈ rows, r.is_equation = false) → inlineA rows = hrepA rows
  | [], _ => rfl
  | r :: rows, h => by
      have hr : r.is_equation = false := h r (List.mem_cons_self r rows)
      simp only [inlineA, List.map_cons, hrepA, hr, Bool.false_eq_true, if_false]
      exact congrArg _ (inlineA_eq_hrepA rows (fun s hs => h s (List.mem_cons_of_mem r hs)))

lemma inlineB_eq_hrepB : ∀ rows : List HrepRow,
    (∀ r ∈ rows, r.is_equation = false) → inlineB rows = hrepB rows
  | [], _ => rfl
  | r :: rows, h => by
      have hr : r.is_equation = false := h r (List.mem_cons_self r rows)
      simp only [inlineB, List.map_cons, hrepB, hr, Bool.false_eq_true, if_false]
      exact congrArg _ (inlineB_eq_hrepB rows (fun s hs => h s (List.mem_cons_of_mem r hs)))

lemma zip_map_proj : ∀ l : List (List ℚ × ℚ), (l.map Prod.fst).zip (l.map Prod.snd) = l
  | [] => rfl
  | p :: l => by simp [zip_map_proj l]

lemma headD_drop : ∀ (x : List ℝ) (i : ℕ), i < x.length → ∀ h : i < x.length,
    (x.drop i).headD 0 = x.get ⟨i, h⟩
  | a :: x, 0, _, _ => rfl
  | a :: x, i + 1, hi, h => by
      simp only [List.drop_succ_cons, List.get_cons_succ]
      exact headD_drop x i (by simpa using hi) _

lemma sqrt_dot_canon (n i : ℕ) (h : i < n) (s : ℚ) (hs : s * s = 1) :
    Real.sqrt ((dot (canon n i s) (canon n i s) : ℚ) : ℝ) = 1 := by
  rw [dot_canon_self s n i h, hs, Rat.cast_one, Real.sqrt_one]

/-- Both rows generated for axis index j of the box construction are among the
generated rows. -/
lemma boxRowsAux_mem (n : ℕ) (r : ℚ) :
    ∀ (cs : List ℚ) (i j : ℕ), j < cs.length →
      ((canon n (i + j) 1, cs.getD j 0 + r) ∈ boxRowsAux n r i cs ∧
       (canon n (i + j) (-1), -(cs.getD j 0 - r)) ∈ boxRowsAux n r i cs)
  | [], _, j, h => by simp at h
  | c :: cs, i, 0, _ => by
      refine ⟨?_, ?_⟩ <;> simp [boxRowsAux]
  | c :: cs, i, j + 1, h => by
      have ih := boxRowsAux_mem n r cs (i + 1) j (by simpa using h)
      have hidx : i + (j + 1) = i + 1 + j := by omega
      simp only [List.getD_cons_succ, boxRowsAux, hidx]
      exact ⟨List.mem_cons_of_mem _ (List.mem_cons_of_mem _ ih.1),
             List.mem_cons_of_mem _ (List.mem_cons_of_mem _ ih.2)⟩

/-- The center of the box, with margin equal to the radius, satisfies every
constraint of the margin LP built over the box rows. -/
lemma boxRowsAux_center_feas (c : List ℚ) (r : ℚ) :
    ∀ (cs : List ℚ) (i : ℕ), c.drop i = cs →
      ∀ p ∈ boxRowsAux c.length r i cs,
        dotR (castR p.1) (castR c) + Real.sqrt ((dot p.1 p.1 : ℚ) : ℝ) * (r : ℝ) ≤ (p.2 : ℝ)
  | [], i, _, p, hp => by simp [boxRowsAux] at hp
  | ci :: cs, i, hdrop, p, hp => by
      have hlt : i < c.length := by
        by_contra hge
        rw [List.drop_eq_nil_of_le (by omega)] at hdrop
        exact List.cons_ne_nil ci cs hdrop.symm
      have hhead : ((castR c).drop i).headD 0 = (ci : ℝ) := by
        have : (castR c).drop i = castR (c.drop i) := (List.map_drop Rat.cast c i).symm
        rw [this, hdrop]
        rfl
      have hclen : c.length ≤ (castR c).length := by simp [castR]
      simp only [boxRowsAux, List.mem_cons] at hp
      rcases hp with hp | hp | hp
      · subst hp
        rw [dotR_canon 1 c.length i (castR c) hlt hclen,
          sqrt_dot_canon c.length i hlt 1 (by norm_num), hhead]
        push_cast
        linarith
      · subst hp
        rw [dotR_canon (-1) c.length i (castR c) hlt hclen,
          sqrt_dot_canon c.length i hlt (-1) (by norm_num), hhead]
        push_cast
        linarith
      · have hdrop2 : c.drop (i + 1) = cs := by
          rw [← List.tail_drop, hdrop]
          rfl
        exact boxRowsAux_center_feas c r cs (i + 1) hdrop2 p hp

/-- The pair (center, radius) is feasible for the margin LP of the box. -/
lemma box_center_feasible (c : List ℚ) (r : ℚ) :
    chebyFeasible (BoxInfty_center_radius c r).1 (BoxInfty_center_radius c r).2
      (castR c) (r : ℝ) := by
  intro p hp
  rw [BoxInfty_center_radius] at hp
  simp only at hp
  rw [zip_map_proj] at hp
  exact boxRowsAux_center_feas c r c 0 (by simp) p hp

/-- The point 0 with margin -1 satisfies both rows of the margin LP that
chebyshev_center formulates for the system x <= -1, -x <= -1. -/
lemma chebyFeasible_neg_one :
    chebyFeasible [[1], [-1]] [-1, -1] ([0] : List ℝ) (-1) := by
  intro p hp
  simp only [List.zip_cons_cons, List.zip_nil_left, List.mem_cons, List.not_mem_nil,
    or_false] at hp
  rcases hp with hp | hp
  · subst hp
    simp only [castR, List.map_cons, List.map_nil, dotR, dot]
    norm_num [Real.sqrt_one]
  · subst hp
    simp only [castR, List.map_cons, List.map_nil, dotR, dot]
    norm_num [Real.sqrt_one]

/-- Claim C1 (code bug): for a Half-Space Model given as the Python list
[A, b], supp_fun_polyhedron is claimed to hand (A, b) directly to the LP
solver and return the optimal value of maximizing d . x over A x <= b.
Instead its very first statement, the attribute call P.is_empty() at line
453, raises AttributeError on a list, for every solver oracle, every system
(A, b) and every direction d: no LP is ever formulated on this path. -/
theorem supp_fun_polyhedron_hrep_attr_error (solve : SuppLP → Except PyErr ℚ)
    (A : List (List ℚ)) (b : List ℚ) (d : List ℚ) :
    supp_fun_polyhedron solve (SuppInput.hrep A b) d = Except.error PyErr.attributeErr := rfl

/-- The failing input for claim C2: a polytope object whose H-representation
is the single equation row with offset 1 and coefficient 1, i.e. the
equation 1 + x = 0 describing the point x = -1. -/
def eqRowExample : PolyObj := PolyObj.mk BaseRing.QQ false [HrepRow.mk true 1 [1]]

/-- Claim C2 (code bug): without equality separation polyhedron_to_Hrep
does append each equation row [offset, c] as the two rows (-c, offset) and
(c, offset), as the claim describes, but those two rows do not force the
equality: on the object describing the point x = -1 the extracted system is
-x <= 1 together with x <= 1, and the point x = 1 satisfies the extracted
system while violating the equation, so the extracted region is strictly
larger than the feasible region of P (the second right-hand side would have
to be -offset). -/
theorem polyhedron_to_Hrep_equation_bug :
    (polyhedron_to_Hrep eqRowExample).1.entries = [[-1], [1]] ∧
    (polyhedron_to_Hrep eqRowExample).2.entries = [1, 1] ∧
    [(1 : ℚ)] ∈ hrepRegion (polyhedron_to_Hrep eqRowExample).1.entries
      (polyhedron_to_Hrep eqRowExample).2.entries ∧
    [(1 : ℚ)] ∉ polyRegion eqRowExample.rows := by
  refine ⟨rfl, rfl, ?_, ?_⟩
  · show ∀ p ∈ ([[-1], [1]] : List (List ℚ)).zip [1, 1], dot p.1 [(1 : ℚ)] ≤ p.2
    intro p hp
    simp only [List.zip_cons_cons, List.zip_nil_left, List.mem_cons, List.not_mem_nil,
      or_false] at hp
    rcases hp with hp | hp <;> subst hp <;> norm_num [dot]
  · show ¬ ∀ r ∈ eqRowExample.rows, rowSat [(1 : ℚ)] r
    intro h
    have h2 := h (HrepRow.mk true 1 [1]) (by simp [eqRowExample])
    simp only [rowSat, dot, if_true] at h2
    norm_num at h2

/-- Claim C3 (round trip): polyhedron_from_Hrep hands the external engine
rows describing exactly the region A x <= b (first conjunct), and for any
read-back rows the engine may produce for that polytope - reordered,
rescaled or reduced, as long as they describe the same region and, the
polytope being full-dimensional, contain no equation rows - the system
extracted by polyhedron_to_Hrep has feasible region set-equal to the
original A x <= b (second conjunct).  The engine behaviour enters only
through the two hypotheses, which are its interface contract. -/
theorem round_trip_feasible_region (A : List (List ℚ)) (b : List ℚ)
    (ring : BaseRing) (e : Bool) (rows : List HrepRow)
    (hnoeq : ∀ r ∈ rows, r.is_equation = false)
    (hregion : polyRegion rows = hrepRegion A b) :
    polyRegion (polyhedron_from_Hrep_ieqs A b) = hrepRegion A b ∧
    hrepRegion (polyhedron_to_Hrep (PolyObj.mk ring e rows)).1.entries
      (polyhedron_to_Hrep (PolyObj.mk ring e rows)).2.entries = hrepRegion A b := by
  refine ⟨polyRegion_fromHrep A b, ?_⟩
  show hrepRegion (hrepA rows) (hrepB rows) = hrepRegion A b
  rw [toHrep_region_no_eq rows hnoeq, hregion]

/-- Witness for claim C3 at the concrete system x <= 1, -x <= 1, with the
engine echoing back exactly the rows it was handed. -/
theorem round_trip_feasible_region_witness :
    (∀ r ∈ polyhedron_from_Hrep_ieqs [[1], [-1]] [1, 1], r.is_equation = false) ∧
    hrepRegion (polyhedron_to_Hrep (PolyObj.mk BaseRing.QQ false
        (polyhedron_from_Hrep_ieqs [[1], [-1]] [1, 1]))).1.entries
      (polyhedron_to_Hrep (PolyObj.mk BaseRing.QQ false
        (polyhedron_from_Hrep_ieqs [[1], [-1]] [1, 1]))).2.entries =
      hrepRegion [[1], [-1]] [1, 1] :=
  ⟨by decide,
   (round_trip_feasible_region [[1], [-1]] [1, 1] BaseRing.QQ false
      (polyhedron_from_Hrep_ieqs [[1], [-1]] [1, 1]) (by decide)
      (polyRegion_fromHrep [[1], [-1]] [1, 1])).2⟩

/-- Claim C4: on the box with center c and radius r > 0 built by BoxInfty,
chebyshev_center formulates the margin LP over exactly the box system (the
row-count check passes and the LP instance over that (A, b) is handed to the
solver), and any optimal solution of that LP - a feasible pair maximizing
the margin among points with the ambient number of coordinates - has point
part exactly the center c. -/
theorem chebyshev_center_box_eq_center (c : List ℚ) (r : ℚ) (x : List ℝ) (ρ : ℝ)
    (hr : 0 < r) (hx : x.length = c.length)
    (hfeas : chebyFeasible (BoxInfty_center_radius c r).1 (BoxInfty_center_radius c r).2 x ρ)
    (hopt : ∀ (y : List ℝ) (σ : ℝ), y.length = c.length →
      chebyFeasible (BoxInfty_center_radius c r).1 (BoxInfty_center_radius c r).2 y σ →
      σ ≤ ρ) :
    chebyshev_center_Ab (BoxInfty_center_radius c r).1 (BoxInfty_center_radius c r).2 =
      ChebyResult.lp (BoxInfty_center_radius c r).1 (BoxInfty_center_radius c r).2 ∧
    x = castR c := by
  have hlen : (BoxInfty_center_radius c r).1.length = (BoxInfty_center_radius c r).2.length := by
    simp [BoxInfty_center_radius]
  refine ⟨by rw [chebyshev_center_Ab, if_pos hlen], ?_⟩
  have hρ : (r : ℝ) ≤ ρ := hopt (castR c) r (by simp [castR]) (box_center_feasible c r)
  have hfeas2 : ∀ p ∈ boxRowsAux c.length r 0 c,
      dotR (castR p.1) x + Real.sqrt ((dot p.1 p.1 : ℚ) : ℝ) * ρ ≤ (p.2 : ℝ) := by
    intro p hp
    apply hfeas
    rw [BoxInfty_center_radius]
    simp only
    rw [zip_map_proj]
    exact hp
  apply List.ext_getElem (by simp [castR, hx])
  intro i h1 h2
  have hi : i < c.length := by rw [← hx]; exact h1
  obtain ⟨hm1, hm2⟩ := boxRowsAux_mem c.length r c 0 i hi
  rw [Nat.zero_add] at hm1 hm2
  have hc1 := hfeas2 _ hm1
  have hc2 := hfeas2 _ hm2
  rw [dotR_canon 1 c.length i x hi (le_of_eq hx.symm),
    sqrt_dot_canon c.length i hi 1 (by norm_num)] at hc1
  rw [dotR_canon (-1) c.length i x hi (le_of_eq hx.symm),
    sqrt_dot_canon c.length i hi (-1) (by norm_num)] at hc2
  have hhead : (x.drop i).headD 0 = x.get ⟨i, h1⟩ := headD_drop x i h1 h1
  rw [List.get_eq_getElem] at hhead
  rw [hhead] at hc1 hc2
  have hgd := List.getD_eq_getElem c 0 hi
  rw [hgd] at hc1 hc2
  push_cast at hc1 hc2
  simp only [castR, List.getElem_map]
  linarith

/-- Witness for claim C4 at the interval box with center 0 and radius 1 in
one variable, with the optimal pair being the center itself at margin 1. -/
theorem chebyshev_center_box_eq_center_witness :
    (0 : ℚ) < 1 ∧
    chebyshev_center_Ab (BoxInfty_center_radius [0] 1).1 (BoxInfty_center_radius [0] 1).2 =
      ChebyResult.lp (BoxInfty_center_radius [0] 1).1 (BoxInfty_center_radius [0] 1).2 ∧
    castR [0] = castR [0] := by
  have h := chebyshev_center_box_eq_center [0] 1 (castR [0]) ((1 : ℚ) : ℝ)
    (by norm_num) (by simp [castR]) (box_center_feasible [0] 1) ?opt
  · exact ⟨by norm_num, h.1, h.2⟩
  case opt =>
    intro y σ hy hyf
    obtain ⟨a, rfl⟩ := List.length_eq_one.mp (by simpa using hy)
    have hz : ((BoxInfty_center_radius [0] 1).1.zip (BoxInfty_center_radius [0] 1).2) =
        boxRowsAux 1 1 0 [0] := zip_map_proj _
    have hrows : boxRowsAux 1 1 0 [0] =
        [(canon 1 0 1, 0 + 1), (canon 1 0 (-1), -(0 - 1))] := rfl
    have e1 := hyf (canon 1 0 1, 0 + 1) (by rw [hz, hrows]; simp)
    have e2 := hyf (canon 1 0 (-1), -(0 - 1)) (by rw [hz, hrows]; simp)
    simp only [canon, zeros, castR, List.map_cons, List.map_nil, dotR, dot] at e1 e2
    norm_num [Real.sqrt_one] at e1 e2
    norm_num
    linarith

/-- Claim C5 (code bug): radius on the Half-Space list [A, b] of the box
with side intervals (0,2) and (0,4) is claimed to return 4; instead already
the first loop iteration calls supp_fun_polyhedron on the list [A, b], whose
attribute call P.is_empty() raises AttributeError, so radius propagates
AttributeError for every solver oracle and never returns a value. -/
theorem radius_box_attr_error (solve : SuppLP → Except PyErr ℚ) :
    radius solve (BoxInfty_lengths [(0, 2), (0, 4)]).1 (BoxInfty_lengths [(0, 2), (0, 4)]).2 =
      Except.error PyErr.attributeErr := rfl

/-- The counterexample object for claim C6: a single equation row 0 + x = 0. -/
def eqRowZero : List HrepRow := [HrepRow.mk true 0 [1]]

/-- Claim C6 counterexample: on a polytope object with an equation row, the
inline extraction of supp_fun_polyhedron keeps only one inequality per row
(here -x <= 0), while polyhedron_to_Hrep appends two rows (here -x <= 0 and
x <= 0); the point x = 1 separates the two feasible regions, so the inline
extraction is not equivalent to the 4.1 converter on such objects. -/
theorem supp_fun_inline_extraction_counterexample :
    [(1 : ℚ)] ∈ hrepRegion (inlineA eqRowZero) (inlineB eqRowZero) ∧
    [(1 : ℚ)] ∉ hrepRegion (polyhedron_to_Hrep (PolyObj.mk BaseRing.QQ false eqRowZero)).1.entries
      (polyhedron_to_Hrep (PolyObj.mk BaseRing.QQ false eqRowZero)).2.entries ∧
    hrepRegion (inlineA eqRowZero) (inlineB eqRowZero) ≠
      hrepRegion (polyhedron_to_Hrep (PolyObj.mk BaseRing.QQ false eqRowZero)).1.entries
        (polyhedron_to_Hrep (PolyObj.mk BaseRing.QQ false eqRowZero)).2.entries := by
  have hin : [(1 : ℚ)] ∈ hrepRegion (inlineA eqRowZero) (inlineB eqRowZero) := by
    intro p hp
    simp only [eqRowZero, inlineA, inlineB, List.map_cons, List.map_nil, List.zip_cons_cons,
      List.zip_nil_left, List.mem_cons, List.not_mem_nil, or_false] at hp
    subst hp
    norm_num [dot]
  have hout : [(1 : ℚ)] ∉
      hrepRegion (polyhedron_to_Hrep (PolyObj.mk BaseRing.QQ false eqRowZero)).1.entries
        (polyhedron_to_Hrep (PolyObj.mk BaseRing.QQ false eqRowZero)).2.entries := by
    intro h
    have h2 := h ([1], 0) ?mem
    · norm_num [dot] at h2
    case mem =>
      show ([1], (0 : ℚ)) ∈ (hrepA eqRowZero).zip (hrepB eqRowZero)
      simp [eqRowZero, hrepA, hrepB]
  exact ⟨hin, hout, fun hsets => hout (hsets ▸ hin)⟩

/-- Claim C6 amended: on polytope objects without equation rows the inline
extraction of supp_fun_polyhedron produces literally the same system as
polyhedron_to_Hrep without equality separation, hence the same feasible
region; with equation rows present the inline extraction keeps only the
greater-or-equal half of each equation and its region can be strictly
larger. -/
theorem supp_fun_inline_extraction_no_equations (P : PolyObj)
    (h : ∀ r ∈ P.rows, r.is_equation = false) :
    inlineA P.rows = (polyhedron_to_Hrep P).1.entries ∧
    inlineB P.rows = (polyhedron_to_Hrep P).2.entries ∧
    hrepRegion (inlineA P.rows) (inlineB P.rows) =
      hrepRegion (polyhedron_to_Hrep P).1.entries (polyhedron_to_Hrep P).2.entries := by
  have h1 := inlineA_eq_hrepA P.rows h
  have h2 := inlineB_eq_hrepB P.rows h
  refine ⟨h1, h2, ?_⟩
  rw [h1, h2]
  rfl

/-- Witness for the amended claim C6 on a one-row inequality object. -/
theorem supp_fun_inline_extraction_no_equations_witness :
    (∀ r ∈ (PolyObj.mk BaseRing.QQ false [HrepRow.mk false 2 [3]]).rows,
      r.is_equation = false) ∧
    inlineA (PolyObj.mk BaseRing.QQ false [HrepRow.mk false 2 [3]]).rows =
      (polyhedron_to_Hrep (PolyObj.mk BaseRing.QQ false [HrepRow.mk false 2 [3]])).1.entries :=
  ⟨by decide,
   (supp_fun_inline_extraction_no_equations
      (PolyObj.mk BaseRing.QQ false [HrepRow.mk false 2 [3]]) (by decide)).1⟩

/-- Claim C7 counterexample: on the infeasible system x <= -1 and -x <= -1,
given as the Half-Space list, neither path signals InfeasibleError:
supp_fun_polyhedron raises AttributeError before the solver is consulted
(shown with a solver oracle that would report infeasibility), and the margin
LP that chebyshev_center formulates is feasible - the point 0 with margin -1
satisfies both rows - so a solver following the interface contract reports
an optimum for it, not infeasibility. -/
theorem infeasible_error_counterexample :
    supp_fun_polyhedron solveReportsInfeasible (SuppInput.hrep [[1], [-1]] [-1, -1]) [1] =
      Except.error PyErr.attributeErr ∧
    chebyFeasible [[1], [-1]] [-1, -1] ([0] : List ℝ) (-1) :=
  ⟨rfl, chebyFeasible_neg_one⟩

/-- Claim C7 amended: on the infeasible system x <= -1, -x <= -1 given as a
Half-Space list, supp_fun_polyhedron raises AttributeError (from the
attribute call P.is_empty() on a list) instead of InfeasibleError, and the
margin LP of chebyshev_center is feasible with optimal margin -1 attained at
the point 0, so chebyshev_center returns a point instead of signaling
InfeasibleError. -/
theorem infeasible_input_behavior (y : List ℝ) (σ : ℝ) (hy : y.length = 1)
    (hf : chebyFeasible [[1], [-1]] [-1, -1] y σ) :
    supp_fun_polyhedron solveReportsInfeasible (SuppInput.hrep [[1], [-1]] [-1, -1]) [1] =
      Except.error PyErr.attributeErr ∧
    chebyFeasible [[1], [-1]] [-1, -1] ([0] : List ℝ) (-1) ∧
    σ ≤ -1 := by
  obtain ⟨a, rfl⟩ := List.length_eq_one.mp hy
  refine ⟨rfl, chebyFeasible_neg_one, ?_⟩
  have e1 := hf ([1], -1) (by simp)
  have e2 := hf ([-1], -1) (by simp)
  simp only [castR, List.map_cons, List.map_nil, dotR, dot] at e1 e2
  norm_num [Real.sqrt_one] at e1 e2
  linarith

/-- Witness for the amended claim C7 at the optimal pair itself. -/
theorem infeasible_input_behavior_witness :
    (([0] : List ℝ).length = 1 ∧ chebyFeasible [[1], [-1]] [-1, -1] ([0] : List ℝ) (-1)) ∧
    ((-1 : ℝ) ≤ -1) :=
  ⟨⟨rfl, chebyFeasible_neg_one⟩,
   (infeasible_input_behavior ([0] : List ℝ) (-1) rfl chebyFeasible_neg_one).2.2⟩

/-- Claim C8: chebyshev_center in (A, b) mode with the number of rows of A
different from the length of b returns the empty list, raising no error and
handing no LP to the solver. -/
theorem chebyshev_center_dim_mismatch (A : List (List ℚ)) (b : List ℚ)
    (h : A.length ≠ b.length) :
    chebyshev_center_Ab A b = ChebyResult.empty_result := by
  rw [chebyshev_center_Ab, if_neg h]

/-- Witness for claim C8: two rows against a length-one right-hand side. -/
theorem chebyshev_center_dim_mismatch_witness :
    ([[1], [2]] : List (List ℚ)).length ≠ ([1] : List ℚ).length ∧
    chebyshev_center_Ab [[1], [2]] [1] = ChebyResult.empty_result :=
  ⟨by decide, chebyshev_center_dim_mismatch [[1], [2]] [1] (by decide)⟩

/-- Claim C9: whatever base ring the polytope object carries, every matrix
and vector returned by polyhedron_to_Hrep - the pair (A, b) and, with
separation requested, also (Aeq, beq) - is tagged with the floating double
field RDF, so the original exact field is not preserved by extraction. -/
theorem polyhedron_to_Hrep_always_RDF (P : PolyObj) :
    (polyhedron_to_Hrep P).1.ring = BaseRing.RDF ∧
    (polyhedron_to_Hrep P).2.ring = BaseRing.RDF ∧
    (polyhedron_to_Hrep_sep P).1.1.ring = BaseRing.RDF ∧
    (polyhedron_to_Hrep_sep P).1.2.ring = BaseRing.RDF ∧
    (polyhedron_to_Hrep_sep P).2.1.ring = BaseRing.RDF ∧
    (polyhedron_to_Hrep_sep P).2.2.ring = BaseRing.RDF :=
  ⟨rfl, rfl, rfl, rfl, rfl, rfl⟩

/-- Claim C10: calling chebyshev_center with exactly two positional values X
and Y resolves without failing to (A, b) mode with the matrix slot bound to
X and the right-hand side to Y (the swap at line 327); and the ValueError of
line 354 occurs only for argument patterns outside the three the parser
accepts (P alone; P with one further positional value; A and b both given
without P). -/
theorem chebyshev_center_positional_swap {α : Type} (X Y : α) (P A b : Option α)
    (herr : chebyParse P A b = ChebyMode.ambiguousErr) :
    chebyParse (some X) (some Y) none = ChebyMode.useAb X Y ∧
    ¬(P.isSome = true ∧ A = none ∧ b = none) ∧
    ¬(P.isSome = true ∧ A.isSome = true ∧ b = none) ∧
    ¬(P = none ∧ A.isSome = true ∧ b.isSome = true) := by
  refine ⟨rfl, ?_, ?_, ?_⟩
  · rintro ⟨hP, rfl, rfl⟩
    obtain ⟨Pv, rfl⟩ := Option.isSome_iff_exists.mp hP
    exact absurd herr (by simp [chebyParse])
  · rintro ⟨hP, hA, rfl⟩
    obtain ⟨Pv, rfl⟩ := Option.isSome_iff_exists.mp hP
    obtain ⟨Av, rfl⟩ := Option.isSome_iff_exists.mp hA
    exact absurd herr (by simp [chebyParse])
  · rintro ⟨rfl, hA, hb⟩
    obtain ⟨Av, rfl⟩ := Option.isSome_iff_exists.mp hA
    obtain ⟨bv, rfl⟩ := Option.isSome_iff_exists.mp hb
    exact absurd herr (by simp [chebyParse])

/-- Witness for claim C10: all three arguments absent is an error pattern,
and two positional values parse into (A, b) mode. -/
theorem chebyshev_center_positional_swap_witness :
    chebyParse (none : Option ℚ) none none = ChebyMode.ambiguousErr ∧
    chebyParse (some (1 : ℚ)) (some 2) none = ChebyMode.useAb 1 2 :=
  ⟨rfl, (chebyshev_center_positional_swap (1 : ℚ) 2 none none none rfl).1⟩

end Carlin
